import Mathlib

/-!
Shallow embedding of the filesystem export engine of
`src/web/apps/photos/src/services/export/index.ts`.

Strings are embedded as `List Char`; JS numbers that hold integers are
embedded as `Int` (`none` of an `Option` result models `NaN` or
`undefined` where noted).  Filesystem state is a list of existing paths;
fallible platform calls are driven by explicit oracles so that failure
injection (as in the error-handling claims) is expressible.
-/

namespace EnteExport

/-- Decimal digit character for a digit value, as JS renders digits in
template literals and in `Number.prototype.toString`. -/
def decDigitChar (d : Nat) : Char :=
  if d = 0 then '0' else if d = 1 then '1' else if d = 2 then '2'
  else if d = 3 then '3' else if d = 4 then '4' else if d = 5 then '5'
  else if d = 6 then '6' else if d = 7 then '7' else if d = 8 then '8' else '9'

/-- Decimal digit test on a character (codepoints 48..57). -/
def isDigitCh (c : Char) : Bool := 48 ≤ c.toNat && c.toNat ≤ 57

/-- Most significant digit first rendering of a natural number, with fuel
for structural recursion; empty on 0. -/
def natToCharsAux : Nat → Nat → List Char
  | 0, _ => []
  | fuel + 1, n =>
    if n = 0 then [] else natToCharsAux fuel (n / 10) ++ [decDigitChar (n % 10)]

/-- Decimal rendering of a natural number, as in a JS template literal. -/
def natToChars (n : Nat) : List Char :=
  if n = 0 then ['0'] else natToCharsAux (n + 1) n

/-- Decimal rendering of an integer, as JS renders an integral number in a
template literal or via `toString`. -/
def intToChars (i : Int) : List Char :=
  if i < 0 then '-' :: natToChars i.natAbs else natToChars i.toNat

/-- Numeric value of a decimal digit character. -/
def charToDigit (c : Char) : Nat := c.toNat - 48

/-- Value of a most-significant-first decimal digit string. -/
def decimalValue (l : List Char) : Nat :=
  l.foldl (fun a c => 10 * a + charToDigit c) 0

/-- JS `Number(s)` on the strings that arise as components of a file UID:
the empty string (value 0 in JS), an optional leading minus sign, and
decimal digits.  `none` models `NaN`. -/
def jsNumberOfChars : List Char → Option Int
  | [] => some 0
  | c :: rest =>
    if c = '-' then
      (if !rest.isEmpty && rest.all isDigitCh then some (-(decimalValue rest : Int)) else none)
    else
      (if (c :: rest).all isDigitCh then some ((decimalValue (c :: rest) : Int)) else none)

/-- Accumulator of the split below: the group being built and the groups
after it. -/
def splitOnCharAux (sep : Char) : List Char → List Char × List (List Char)
  | [] => ([], [])
  | c :: cs =>
    if c = sep then ([], (splitOnCharAux sep cs).1 :: (splitOnCharAux sep cs).2)
    else (c :: (splitOnCharAux sep cs).1, (splitOnCharAux sep cs).2)

/-- JS `String.prototype.split` with a one-character separator. -/
def splitOnChar (sep : Char) (l : List Char) : List (List Char) :=
  (splitOnCharAux sep l).1 :: (splitOnCharAux sep l).2

/-- Remote file, restricted to the attributes the claims use (id,
collection id, updation time; the owner of the holding collection is kept
on the file for the personal-files filter). -/
structure EnteFile where
  id : Int
  collectionID : Int
  updationTime : Int
deriving DecidableEq, Repr

/-- Mirrors `getExportRecordFileUID` (services/export/index.ts:1230): the
derived key id_collectionID_updationTime. -/
def getExportRecordFileUID (f : EnteFile) : List Char :=
  intToChars f.id ++ '_' :: (intToChars f.collectionID ++ '_' :: intToChars f.updationTime)

/-- Mirrors `getCollectionIDFromFileUID` (services/export/index.ts:1233):
`Number(fileUID.split("_")[1])`; `none` models `NaN` (also from the
`undefined` of an out-of-range index). -/
def getCollectionIDFromFileUID (fileUID : List Char) : Option Int :=
  ((splitOnChar '_' fileUID).get? 1).bind jsNumberOfChars

/-! ### JSON acceptance (JSON.parse success) -/

def lbraceChar : Char := Char.ofNat 123

def rbraceChar : Char := Char.ofNat 125

def quoteChar : Char := '\"'

def backslashChar : Char := '\\'

/-- JSON whitespace. -/
def isWsChar (c : Char) : Bool := c == ' ' || c == '\t' || c == '\n' || c == '\r'

def skipWs : List Char → List Char
  | [] => []
  | c :: cs => if isWsChar c then skipWs cs else c :: cs

def isHexDigitCh (c : Char) : Bool :=
  isDigitCh c || (97 ≤ c.toNat && c.toNat ≤ 102) || (65 ≤ c.toNat && c.toNat ≤ 70)

/-- Body of a JSON string after the opening quote; returns the input after
the closing quote.  Fuel is structural; callers pass more than the input
length. -/
def parseStrBody : Nat → List Char → Option (List Char)
  | 0, _ => none
  | _ + 1, [] => none
  | fuel + 1, c :: cs =>
    if c = quoteChar then some cs
    else if c = backslashChar then
      match cs with
      | [] => none
      | e :: cs2 =>
        if e = quoteChar || e = backslashChar || e = '/' || e = 'b' || e = 'f' ||
            e = 'n' || e = 'r' || e = 't' then
          parseStrBody fuel cs2
        else if e = 'u' then
          match cs2 with
          | h1 :: h2 :: h3 :: h4 :: cs3 =>
            if isHexDigitCh h1 && isHexDigitCh h2 && isHexDigitCh h3 && isHexDigitCh h4 then
              parseStrBody fuel cs3
            else none
          | _ => none
        else none
    else if c.toNat < 32 then none
    else parseStrBody fuel cs

/-- One or more decimal digits; returns the rest after the maximal run. -/
def parseDigits1 : List Char → Option (List Char)
  | [] => none
  | c :: cs => if isDigitCh c then some (cs.dropWhile isDigitCh) else none

/-- Optional JSON fraction part. -/
def parseFracPart : List Char → Option (List Char)
  | '.' :: r => parseDigits1 r
  | l => some l

/-- Optional JSON exponent part. -/
def parseExpPart : List Char → Option (List Char)
  | [] => some []
  | c :: r =>
    if c = 'e' || c = 'E' then
      match r with
      | [] => none
      | s :: r2 => if s = '+' || s = '-' then parseDigits1 r2 else parseDigits1 (s :: r2)
    else some (c :: r)

/-- Strict JSON number grammar: optional minus, `0` or a nonzero-led digit
run, optional fraction, optional exponent. -/
def parseNumber (l : List Char) : Option (List Char) :=
  let l1 := match l with
    | c :: r => if c = '-' then r else c :: r
    | [] => []
  match l1 with
  | [] => none
  | c :: r =>
    if c = '0' then (parseFracPart r).bind parseExpPart
    else if isDigitCh c then (parseFracPart (r.dropWhile isDigitCh)).bind parseExpPart
    else none

/-- Consume an expected literal character sequence. -/
def expectLit : List Char → List Char → Option (List Char)
  | [], l => some l
  | _ :: _, [] => none
  | p :: ps, c :: cs => if c = p then expectLit ps cs else none

/-- Parser modes: a value, the inside of an object (after the opening
brace, whitespace skipped), the inside of an array, the member list of an
object, the element list of an array. -/
inductive PMode where
  | value
  | objectBody
  | arrayBody
  | members
  | elements
deriving DecidableEq, Repr

/-- Recursive descent over the strict JSON grammar; returns the input left
after the parsed production.  Structural fuel: every recursive call
consumes at least one input character, so fuel larger than twice the input
length never runs out. -/
def parseRun : Nat → PMode → List Char → Option (List Char)
  | 0, _, _ => none
  | fuel + 1, .value, l =>
    match l with
    | [] => none
    | c :: cs =>
      if c = quoteChar then parseStrBody (cs.length + 1) cs
      else if c = lbraceChar then parseRun fuel .objectBody (skipWs cs)
      else if c = '[' then parseRun fuel .arrayBody (skipWs cs)
      else if c = 't' then expectLit ['r', 'u', 'e'] cs
      else if c = 'f' then expectLit ['a', 'l', 's', 'e'] cs
      else if c = 'n' then expectLit ['u', 'l', 'l'] cs
      else if c = '-' || isDigitCh c then parseNumber (c :: cs)
      else none
  | fuel + 1, .objectBody, l =>
    match l with
    | [] => none
    | c :: cs => if c = rbraceChar then some cs else parseRun fuel .members (c :: cs)
  | fuel + 1, .arrayBody, l =>
    match l with
    | [] => none
    | c :: cs => if c = ']' then some cs else parseRun fuel .elements (c :: cs)
  | fuel + 1, .members, l =>
    match l with
    | [] => none
    | c :: cs =>
      if c = quoteChar then
        match parseStrBody (cs.length + 1) cs with
        | none => none
        | some r1 =>
          match skipWs r1 with
          | ':' :: r2 =>
            match parseRun fuel .value (skipWs r2) with
            | none => none
            | some r3 =>
              match skipWs r3 with
              | [] => none
              | c2 :: r4 =>
                if c2 = ',' then parseRun fuel .members (skipWs r4)
                else if c2 = rbraceChar then some r4
                else none
          | _ => none
      else none
  | fuel + 1, .elements, l =>
    match parseRun fuel .value (skipWs l) with
    | none => none
    | some r1 =>
      match skipWs r1 with
      | [] => none
      | c :: r2 =>
        if c = ',' then parseRun fuel .elements (skipWs r2)
        else if c = ']' then some r2
        else none

/-- Whether JSON.parse accepts the string: a single JSON value surrounded
by optional whitespace. -/
def jsonAccepts (l : List Char) : Bool :=
  match parseRun (2 * l.length + 2) .value (skipWs l) with
  | some rest => (skipWs rest).isEmpty
  | none => false

/-- Mirrors `isLivePhotoExportName` (services/export/index.ts:1445): try
JSON.parse on the export name, true unless it throws. -/
def isLivePhotoExportName (exportName : List Char) : Bool := jsonAccepts exportName

def hexDigitChar (d : Nat) : Char :=
  if d < 10 then decDigitChar d
  else if d = 10 then 'a' else if d = 11 then 'b' else if d = 12 then 'c'
  else if d = 13 then 'd' else if d = 14 then 'e' else 'f'

/-- One character of the output of JSON.stringify for a string value. -/
def escJsonChar (c : Char) : List Char :=
  if c = quoteChar || c = backslashChar then [backslashChar, c]
  else if c.toNat = 8 then [backslashChar, 'b']
  else if c.toNat = 9 then [backslashChar, 't']
  else if c.toNat = 10 then [backslashChar, 'n']
  else if c.toNat = 12 then [backslashChar, 'f']
  else if c.toNat = 13 then [backslashChar, 'r']
  else if c.toNat < 32 then
    [backslashChar, 'u', '0', '0', hexDigitChar (c.toNat / 16), hexDigitChar (c.toNat % 16)]
  else [c]

/-- JSON.stringify of a string value. -/
def jsonQuoteString (s : List Char) : List Char :=
  quoteChar :: ((s.map escJsonChar).flatten ++ [quoteChar])

/-- Mirrors `getLivePhotoExportName` (services/export/index.ts:1436):
JSON.stringify of an object with the image and video keys. -/
def getLivePhotoExportName (imageExportName videoExportName : List Char) : List Char :=
  lbraceChar ::
    (jsonQuoteString "image".data ++ ':' :: jsonQuoteString imageExportName ++
      ',' :: jsonQuoteString "video".data ++ ':' :: jsonQuoteString videoExportName) ++
    [rbraceChar]

/-! ### Journal record and its mutation helpers -/

/-- First-match lookup in a JS-object style association list. -/
def lookupEntry {α : Type} (k : List Char) : List (List Char × α) → Option α
  | [] => none
  | (k2, v) :: rest => if k2 = k then some v else lookupEntry k rest

/-- JS object spread of a then b (later keys win): the properties of a in
order with values overridden by b where b has the key, then the properties
of b whose key a lacks, in order. -/
def spreadObj {α : Type} (a b : List (List Char × α)) : List (List Char × α) :=
  (a.map fun kv =>
    match lookupEntry kv.1 b with
    | some v => (kv.1, v)
    | none => kv) ++
    b.filter fun kv => (lookupEntry kv.1 a).isNone

/-- The persisted journal (`export_status.json`), types/export.  The two
name maps are `Option` so that a record whose field is missing (JS
`undefined`), which the source guards for, is representable. -/
structure ExportRecord where
  version : Nat
  lastAttemptTimestamp : Option Int
  stage : Nat
  fileExportNames : Option (List (List Char × List Char))
  collectionExportNames : Option (List (List Char × List Char))
deriving DecidableEq, Repr

/-- Mirrors `NULL_EXPORT_RECORD` (services/export/index.ts:76): version 3,
null timestamp, stage INIT, empty maps. -/
def NULL_EXPORT_RECORD : ExportRecord :=
  { version := 3, lastAttemptTimestamp := none, stage := 0,
    fileExportNames := some [], collectionExportNames := some [] }

/-- Mirrors `addFileExportedRecord` (services/export/index.ts:875): default
a missing map to the empty object, then spread with the one-key object for
the UID. -/
def addFileExportedRecord (fileUID fileExportName : List Char) (r : ExportRecord) :
    ExportRecord :=
  { r with
    fileExportNames := some (spreadObj (r.fileExportNames.getD []) [(fileUID, fileExportName)]) }

/-- Mirrors `removeFileExportedRecord` (services/export/index.ts:941):
keep the entries whose key differs from the UID.  (The source reads the
field without a guard; the modelled flows only reach this with the field
present, for which the default to the empty list is exact.) -/
def removeFileExportedRecord (fileUID : List Char) (r : ExportRecord) : ExportRecord :=
  { r with
    fileExportNames := some ((r.fileExportNames.getD []).filter fun kv => !(kv.1 == fileUID)) }

/-- Mirrors `addCollectionExportedRecord` (services/export/index.ts:898);
the numeric computed key becomes its decimal string. -/
def addCollectionExportedRecord (collectionID : Int) (collectionExportName : List Char)
    (r : ExportRecord) : ExportRecord :=
  { r with
    collectionExportNames := some (spreadObj (r.collectionExportNames.getD [])
        [(intToChars collectionID, collectionExportName)]) }

/-- Mirrors `removeCollectionExportedRecord` (services/export/index.ts:922):
keep the entries whose key differs from the decimal string of the id. -/
def removeCollectionExportedRecord (collectionID : Int) (r : ExportRecord) : ExportRecord :=
  { r with
    collectionExportNames := some ((r.collectionExportNames.getD []).filter fun kv =>
        !(kv.1 == intToChars collectionID)) }

/-! ### Planner -/

/-- Remote collection, restricted to the attributes the claims use. -/
structure Collection where
  id : Int
  name : List Char
deriving DecidableEq, Repr

/-- Modelled from the spec: `getCollectionUserFacingName` (utils/collection,
not under src/) returns the user-facing name of the collection. -/
def getCollectionUserFacingName (c : Collection) : List Char := c.name

/-- Modelled from the spec: `getPersonalFiles` (utils/file, not under src/)
keeps the files whose owning collection belongs to the current user
("Personal = file whose owning-collection owner equals the current user"). -/
def getPersonalFiles (files : List EnteFile) (userID : Int)
    (collectionOwner : Int → Option Int) : List EnteFile :=
  files.filter fun f => collectionOwner f.collectionID == some userID

/-- Mirrors `getUnExportedFiles` (services/export/index.ts:1315): all the
files when the map is missing, else the files whose UID is not a key. -/
def getUnExportedFiles (allFiles : List EnteFile) (r : ExportRecord) : List EnteFile :=
  match r.fileExportNames with
  | none => allFiles
  | some m => allFiles.filter fun f => !((m.map Prod.fst).contains (getExportRecordFileUID f))

/-- Mirrors the regex replace of a trailing parenthesized digit run
(`services/export/index.ts:1278`): when the recorded name ends in a
left parenthesis, one or more digits and a right parenthesis, drop that
suffix, else return the name unchanged. -/
def stripNumberedSuffix (l : List Char) : List Char :=
  match l.reverse with
  | ')' :: r =>
    (let ds := r.takeWhile isDigitCh
     if ds.isEmpty then l
     else
       match r.drop ds.length with
       | '(' :: rest => rest.reverse
       | _ => l)
  | _ => l

/-- Mirrors `getRenamedExportedCollections` (services/export/index.ts:1256).
The Map built with Number(key) is modelled by searching the entries with
`jsNumberOfChars`. -/
def getRenamedExportedCollections (collections : List Collection) (r : ExportRecord) :
    List Collection :=
  match r.collectionExportNames with
  | none => []
  | some names =>
    collections.filter fun c =>
      match (names.find? fun kv => jsNumberOfChars kv.1 == some c.id).map Prod.snd with
      | none => false
      | some currentExportName =>
        if currentExportName = getCollectionUserFacingName c then false
        else !(stripNumberedSuffix currentExportName == getCollectionUserFacingName c)

/-- Mirrors `getCollectionExportedFiles` (services/export/index.ts:1353):
the UID keys of the file map whose middle component equals the collection
id (strict equality, so a NaN never matches). -/
def getCollectionExportedFiles (r : ExportRecord) (collectionID : Int) : List (List Char) :=
  match r.fileExportNames with
  | none => []
  | some m =>
    (m.map Prod.fst).filter fun fileUID =>
      (((splitOnChar '_' fileUID).get? 1).bind jsNumberOfChars) == some collectionID

/-! ### Paths -/

def exportMetadataDirectoryName : List Char := "metadata".data

def exportTrashDirectoryName : List Char := "Trash".data

/-- Mirrors `getMetadataFolderExportPath` (services/export/index.ts:1402). -/
def getMetadataFolderExportPath (collectionExportPath : List Char) : List Char :=
  collectionExportPath ++ '/' :: exportMetadataDirectoryName

/-- Mirrors `getFileMetadataExportPath` (services/export/index.ts:1405). -/
def getFileMetadataExportPath (collectionExportPath fileExportName : List Char) : List Char :=
  collectionExportPath ++ '/' :: exportMetadataDirectoryName ++ '/' :: fileExportName ++ ".json".data

/-- Does one list start with another (used for the string replace below). -/
def charsStartWith : List Char → List Char → Bool
  | [], _ => true
  | _ :: _, [] => false
  | p :: ps, c :: cs => p == c && charsStartWith ps cs

/-- JS `String.prototype.replace` with a plain string pattern: replace the
first occurrence only. -/
def replaceFirst (pat repl : List Char) : List Char → List Char
  | [] => []
  | c :: cs =>
    if charsStartWith pat (c :: cs) then repl ++ (c :: cs).drop pat.length
    else c :: replaceFirst pat repl cs

/-- Modelled from the spec: `splitFilenameAndExtension` (utils/file, not
under src/) splits at the last dot, "preserving the last dot-separated
extension if any"; without a dot the second component is `none`. -/
def splitFilenameAndExtension : List Char → List Char × Option (List Char)
  | [] => ([], none)
  | c :: cs =>
    match splitFilenameAndExtension cs with
    | (stem, some ext) => (c :: stem, some ext)
    | (_, none) => if c = '.' then ([], some cs) else (c :: cs, none)

/-- One step of the collision loop of `getTrashedFileExportPath`: split the
current candidate, append the parenthesized counter to its stem, keeping
the extension when there is one. -/
def nextTrashCandidate (count : Nat) (p : List Char) : List Char :=
  match splitFilenameAndExtension p with
  | (stem, some ext) => stem ++ '(' :: natToChars count ++ ')' :: '.' :: ext
  | (stem, none) => stem ++ '(' :: natToChars count ++ [')']

/-- The while loop of `getTrashedFileExportPath`, with fuel (the loop in
the source is bounded because the candidates strictly grow and the set of
existing paths is finite; the fuel chosen below is proved sufficient). -/
def getTrashedFileExportPathLoop (disk : List (List Char)) :
    Nat → Nat → List Char → Option (List Char)
  | 0, _, _ => none
  | fuel + 1, count, p =>
    if disk.contains p then getTrashedFileExportPathLoop disk fuel (count + 1) (nextTrashCandidate count p)
    else some p

/-- Initial candidate of `getTrashedFileExportPath`: the relative path of
the file re-rooted under the trash directory. -/
def initialTrashPath (exportDir path : List Char) : List Char :=
  exportDir ++ '/' :: exportTrashDirectoryName ++ '/' :: replaceFirst (exportDir ++ ['/']) [] path

/-- Mirrors `getTrashedFileExportPath` (services/export/index.ts:1411); the
`exists` calls of the platform are modelled by membership in the list of
existing paths. -/
def getTrashedFileExportPath (disk : List (List Char)) (exportDir path : List Char) :
    Option (List Char) :=
  getTrashedFileExportPathLoop disk (disk.length + 1) 1 (initialTrashPath exportDir path)

/-- Ordering of the inventory by collection id and then file id (the
ordering stated by the spec for FilesToExport). -/
def fileOrder (f g : EnteFile) : Prop :=
  f.collectionID < g.collectionID ∨ (f.collectionID = g.collectionID ∧ f.id ≤ g.id)

/-! ### Error taxonomy (CustomError messages compared by the handlers) -/

/-- The error messages the catch handlers of the export service compare
against; `saveFailed`, `deleteFailed` and `collectionNotEmpty` stand for
the generic errors whose message is none of the three fatal kinds. -/
inductive ErrorMessage where
  | updateExportedRecordFailed
  | exportFolderDoesNotExist
  | exportStopped
  | exportRecordJsonParsingFailed
  | collectionNotEmpty
  | saveFailed (path : List Char)
  | deleteFailed (path : List Char)
deriving DecidableEq, Repr

/-- The membership test every per-item catch performs: is the message one
of UPDATE_EXPORTED_RECORD_FAILED, EXPORT_FOLDER_DOES_NOT_EXIST,
EXPORT_STOPPED (the kinds rethrown rather than logged and skipped). -/
def isPhaseFatal : ErrorMessage → Bool
  | .updateExportedRecordFailed => true
  | .exportFolderDoesNotExist => true
  | .exportStopped => true
  | _ => false

/-- Mutable state the materializer touches: the existing paths on disk and
the journal record. -/
structure ExportState where
  disk : List (List Char)
  record : ExportRecord
deriving DecidableEq, Repr

/-- Success or failure of each fallible platform and journal call, fixed
up front so failure injection is expressible; saveOk and deleteOk are per
path. -/
structure FsOracle where
  saveOk : List Char → Bool
  deleteOk : List Char → Bool
  journalAddOk : Bool
  journalRemoveOk : Bool

/-- Mirrors `exportLivePhoto` (services/export/index.ts:1090).  The stream
decoding is outside the claim; the two basenames are inputs.  Record the
combined name, write image sidecar, image, video sidecar, video in order;
when the video write fails delete the written image and rethrow; the outer
catch removes the journal entry and rethrows.  The first component is the
propagated error, if any; the second the resulting state. -/
def exportLivePhoto (o : FsOracle) (fileUID collectionExportPath imageExportName
    videoExportName : List Char) (s : ExportState) : Option ErrorMessage × ExportState :=
  let livePhotoExportName := getLivePhotoExportName imageExportName videoExportName
  if o.journalAddOk = false then (some .updateExportedRecordFailed, s)
  else
    let r1 := addFileExportedRecord fileUID livePhotoExportName s.record
    let imagePath := collectionExportPath ++ '/' :: imageExportName
    let videoPath := collectionExportPath ++ '/' :: videoExportName
    let imageMetaPath := getFileMetadataExportPath collectionExportPath imageExportName
    let videoMetaPath := getFileMetadataExportPath collectionExportPath videoExportName
    let rollback : ErrorMessage → List (List Char) → Option ErrorMessage × ExportState :=
      fun e d =>
        if o.journalRemoveOk then (some e, ⟨d, removeFileExportedRecord fileUID r1⟩)
        else (some .updateExportedRecordFailed, ⟨d, r1⟩)
    if o.saveOk imageMetaPath = false then rollback (.saveFailed imageMetaPath) s.disk
    else
      let d1 := imageMetaPath :: s.disk
      if o.saveOk imagePath = false then rollback (.saveFailed imagePath) d1
      else
        let d2 := imagePath :: d1
        if o.saveOk videoMetaPath = false then rollback (.saveFailed videoMetaPath) d2
        else
          let d3 := videoMetaPath :: d2
          if o.saveOk videoPath = false then
            (if o.deleteOk imagePath then
              rollback (.saveFailed videoPath) (d3.filter fun q => !(q == imagePath))
             else rollback (.deleteFailed imagePath) d3)
          else (none, ⟨videoPath :: d3, r1⟩)

/-! ### Collection removal phase -/

/-- Success of the journal persistence and of each folder delete during
the collection-removal phase. -/
structure RemOracle where
  journalOk : Bool
  deleteFolderOk : List Char → Bool

/-- One iteration of the loop of `collectionRemover`
(services/export/index.ts:570): cancellation check, export-folder check,
name lookup in the Map built from the snapshot, the emptiness assertion
against the snapshot, then remove the journal entry and delete the two
folders, restoring the entry if a delete fails.  A missing Map entry
renders as the JS string undefined inside the path template. -/
def removeOneCollection (o : RemOracle) (snapshot : ExportRecord)
    (folderExists canceled : Bool) (exportFolder : List Char) (collectionID : Int)
    (st : ExportState) : Option ErrorMessage × ExportState :=
  if canceled then (some .exportStopped, st)
  else if folderExists = false then (some .exportFolderDoesNotExist, st)
  else
    let collectionExportName :=
      (((snapshot.collectionExportNames.getD []).find? fun kv =>
          jsNumberOfChars kv.1 == some collectionID).map Prod.snd).getD "undefined".data
    if (getCollectionExportedFiles snapshot collectionID).length > 0 then
      (some .collectionNotEmpty, st)
    else
      let collectionExportPath := exportFolder ++ '/' :: collectionExportName
      let metaPath := getMetadataFolderExportPath collectionExportPath
      if o.journalOk = false then (some .updateExportedRecordFailed, st)
      else
        let r1 := removeCollectionExportedRecord collectionID st.record
        if o.deleteFolderOk metaPath = false then
          (some (.deleteFailed metaPath),
            ⟨st.disk, addCollectionExportedRecord collectionID collectionExportName r1⟩)
        else
          let d1 := st.disk.filter fun q => !(q == metaPath)
          if o.deleteFolderOk collectionExportPath = false then
            (some (.deleteFailed collectionExportPath),
              ⟨d1, addCollectionExportedRecord collectionID collectionExportName r1⟩)
          else (none, ⟨d1.filter fun q => !(q == collectionExportPath), r1⟩)

/-- The loop of `collectionRemover` with its per-item catch: an error whose
message is one of the three fatal kinds is rethrown, any other is logged
and the loop continues with the next collection id. -/
def collectionRemover (o : RemOracle) (snapshot : ExportRecord)
    (folderExists canceled : Bool) (exportFolder : List Char) :
    List Int → ExportState → Option ErrorMessage × ExportState
  | [], st => (none, st)
  | collectionID :: rest, st =>
    match removeOneCollection o snapshot folderExists canceled exportFolder collectionID st with
    | (some e, st1) =>
      if isPhaseFatal e then (some e, st1)
      else collectionRemover o snapshot folderExists canceled exportFolder rest st1
    | (none, st1) => collectionRemover o snapshot folderExists canceled exportFolder rest st1

/-! ### Journal load with one retry -/

/-- Environment of `getExportRecord`: per attempt, whether the export
folder exists, whether the record file exists, and the text read from it. -/
structure RecordReadEnv where
  folderExistsAt : Nat → Bool
  fileExistsAt : Nat → Bool
  contentAt : Nat → List Char

/-- Outcome of one load of the journal. -/
inductive GetRecordOutcome where
  | ok (content : List Char)
  | okEmptyCreated
  | err (e : ErrorMessage)
deriving DecidableEq, Repr

/-- One attempt of `getExportRecord` (services/export/index.ts:986):
verify the folder, create and return the empty record when the file is
missing, else read and JSON.parse, raising the parsing-failed error when
the parse throws. -/
def getExportRecordOnce (env : RecordReadEnv) (attempt : Nat) : GetRecordOutcome :=
  if env.folderExistsAt attempt = false then .err .exportFolderDoesNotExist
  else if env.fileExistsAt attempt = false then .okEmptyCreated
  else if jsonAccepts (env.contentAt attempt) then .ok (env.contentAt attempt)
  else .err .exportRecordJsonParsingFailed

/-- Mirrors `getExportRecord` with its default retry flag: on a parse
failure sleep 1000 ms and run the whole body once more with the flag
cleared, surfacing whatever the second attempt yields.  The second
component lists the sleep delays performed, in ms. -/
def getExportRecord (env : RecordReadEnv) : GetRecordOutcome × List Nat :=
  match getExportRecordOnce env 0 with
  | .err .exportRecordJsonParsingFailed => (getExportRecordOnce env 1, [1000])
  | r => (r, [])

/-! ### Scheduler -/

/-- The fields of the export service the scheduler uses:
`exportInProgress` is the nullable canceller (here, whether it is set),
`reRunNeeded` the coalescing flag; `activeRuns` counts the run bodies that
have been entered and not yet finished (ghost, for the single-flight
statement); `deferredCalls` the delays of the queued setTimeout callbacks
that will call `scheduleExport`. -/
structure SchedulerState where
  exportInProgress : Bool
  reRunNeeded : Bool
  activeRuns : Nat
  deferredCalls : List Nat
deriving DecidableEq, Repr

/-- Entry of `scheduleExport` (services/export/index.ts:297): when a run is
in progress set the re-run flag and return (no second run); otherwise
install a canceller and enter the run body.  The boolean reports whether a
new run was started. -/
def scheduleExport (s : SchedulerState) : SchedulerState × Bool :=
  if s.exportInProgress then ({ s with reRunNeeded := true }, false)
  else ({ s with exportInProgress := true, activeRuns := s.activeRuns + 1 }, true)

/-- A number of external triggers, each invoking `scheduleExport`. -/
def scheduleMany : Nat → SchedulerState → SchedulerState
  | 0, s => s
  | n + 1, s => scheduleMany n (scheduleExport s).1

/-- The finally block of `scheduleExport` on natural (non-cancelled)
completion (services/export/index.ts:326): postExport, clear
`exportInProgress`, and when the re-run flag is set clear it and enqueue a
single 0-delay deferred call to `scheduleExport`. -/
def finishRunNatural (s : SchedulerState) : SchedulerState :=
  let s1 := { s with exportInProgress := false, activeRuns := s.activeRuns - 1 }
  if s1.reRunNeeded then
    { s1 with reRunNeeded := false, deferredCalls := s1.deferredCalls ++ [0] }
  else s1

/-! ### Journal update as a JS object merge -/

/-- JSON-level value of a journal field (numbers, null, or one of the two
name maps). -/
inductive JVal where
  | jnum (n : Int)
  | jnull
  | jmap (entries : List (List Char × List Char))
deriving DecidableEq, Repr

def kVersion : List Char := "version".data

def kLastAttemptTimestamp : List Char := "lastAttemptTimestamp".data

def kStage : List Char := "stage".data

def kFileExportNames : List Char := "fileExportNames".data

def kCollectionExportNames : List Char := "collectionExportNames".data

/-- Encoding of the nullable timestamp. -/
def encLastAttempt : Option Int → JVal
  | some t => .jnum t
  | none => .jnull

/-- The journal record as the JS object that is serialized: its five
properties in declaration order. -/
def exportRecordToObj (r : ExportRecord) : List (List Char × JVal) :=
  [(kVersion, .jnum r.version), (kLastAttemptTimestamp, encLastAttempt r.lastAttemptTimestamp),
    (kStage, .jnum r.stage), (kFileExportNames, .jmap (r.fileExportNames.getD [])),
    (kCollectionExportNames, .jmap (r.collectionExportNames.getD []))]

/-- `Partial ExportRecord`: each field present or absent. -/
structure PartialExportRecord where
  version : Option Nat
  lastAttemptTimestamp : Option Int
  stage : Option Nat
  fileExportNames : Option (List (List Char × List Char))
  collectionExportNames : Option (List (List Char × List Char))
deriving DecidableEq, Repr

/-- The property list a present field contributes to the partial object. -/
def optEntry {α : Type} (k : List Char) : Option α → List (List Char × α)
  | some v => [(k, v)]
  | none => []

/-- The partial update as the JS object passed to the merge: only the
present fields, in declaration order. -/
def partialToObj (nd : PartialExportRecord) : List (List Char × JVal) :=
  optEntry kVersion ((nd.version.map fun n => JVal.jnum n)) ++
    optEntry kLastAttemptTimestamp (nd.lastAttemptTimestamp.map JVal.jnum) ++
    optEntry kStage ((nd.stage.map fun n => JVal.jnum n)) ++
    optEntry kFileExportNames (nd.fileExportNames.map JVal.jmap) ++
    optEntry kCollectionExportNames (nd.collectionExportNames.map JVal.jmap)

/-- Mirrors the merge of `updateExportRecordHelper`
(services/export/index.ts:965): the spread of the prior record and then
the partial new data, which is then serialized to disk. -/
def updateExportRecordHelper (prior : ExportRecord) (newData : PartialExportRecord) :
    List (List Char × JVal) :=
  spreadObj (exportRecordToObj prior) (partialToObj newData)

/-! ## Helper lemmas: decimal rendering and splitting -/

theorem isDigitCh_decDigitChar (d : Nat) : isDigitCh (decDigitChar d) = true := by
  unfold decDigitChar
  repeat' split
  all_goals decide

theorem charToDigit_decDigitChar (d : Nat) (h : d < 10) :
    charToDigit (decDigitChar d) = d := by
  interval_cases d <;> decide

theorem mem_natToCharsAux_digit :
    ∀ fuel n c, c ∈ natToCharsAux fuel n → isDigitCh c = true := by
  intro fuel
  induction fuel with
  | zero => intro n c h; simp [natToCharsAux] at h
  | succ fuel ih =>
    intro n c h
    simp only [natToCharsAux] at h
    split at h
    · simp at h
    · rw [List.mem_append] at h
      rcases h with h | h
      · exact ih _ _ h
      · simp only [List.mem_singleton] at h
        subst h
        exact isDigitCh_decDigitChar _

theorem mem_natToChars_digit (n : Nat) (c : Char) (h : c ∈ natToChars n) :
    isDigitCh c = true := by
  unfold natToChars at h
  split at h
  · simp only [List.mem_singleton] at h; subst h; decide
  · exact mem_natToCharsAux_digit _ _ _ h

theorem natToChars_ne_nil (n : Nat) : natToChars n ≠ [] := by
  unfold natToChars
  split
  · simp
  · rename_i hn
    simp only [natToCharsAux]
    rw [if_neg hn]
    simp

theorem digit_ne_underscore (c : Char) (h : isDigitCh c = true) : c ≠ '_' := by
  intro heq
  subst heq
  exact absurd h (by decide)

theorem digit_ne_minus (c : Char) (h : isDigitCh c = true) : c ≠ '-' := by
  intro heq
  subst heq
  exact absurd h (by decide)

theorem foldl_natToCharsAux (fuel : Nat) :
    ∀ n a, n ≤ fuel →
      (natToCharsAux fuel n).foldl (fun acc c => 10 * acc + charToDigit c) a
        = a * 10 ^ (natToCharsAux fuel n).length + n := by
  induction fuel with
  | zero =>
    intro n a h
    interval_cases n
    simp [natToCharsAux]
  | succ fuel ih =>
    intro n a h
    by_cases hn : n = 0
    · subst hn; simp [natToCharsAux]
    · simp only [natToCharsAux]
      rw [if_neg hn, List.foldl_append]
      have hdiv : n / 10 ≤ fuel := by omega
      rw [ih (n / 10) a hdiv]
      rw [List.length_append, List.length_singleton, List.foldl_cons, List.foldl_nil]
      rw [charToDigit_decDigitChar (n % 10) (Nat.mod_lt n (by omega))]
      rw [pow_succ, ← mul_assoc]
      generalize a * 10 ^ (natToCharsAux fuel (n / 10)).length = X
      omega

theorem decimalValue_natToChars (n : Nat) : decimalValue (natToChars n) = n := by
  unfold natToChars
  split
  · rename_i h; subst h; decide
  · unfold decimalValue
    rw [foldl_natToCharsAux (n + 1) n 0 (by omega)]
    omega

theorem jsNumber_natToChars (n : Nat) : jsNumberOfChars (natToChars n) = some (n : Int) := by
  cases h : natToChars n with
  | nil => exact absurd h (natToChars_ne_nil n)
  | cons c cs =>
    have hdig : ∀ x ∈ c :: cs, isDigitCh x = true := by
      intro x hx
      exact mem_natToChars_digit n x (h ▸ hx)
    have hall : (c :: cs).all isDigitCh = true := List.all_eq_true.mpr hdig
    have hc : ¬(c = '-') := digit_ne_minus c (hdig c (List.mem_cons_self c cs))
    simp only [jsNumberOfChars]
    rw [if_neg hc, if_pos hall]
    rw [← h, decimalValue_natToChars]

theorem jsNumber_intToChars (i : Int) : jsNumberOfChars (intToChars i) = some i := by
  unfold intToChars
  split
  · rename_i hneg
    cases h : natToChars i.natAbs with
    | nil => exact absurd h (natToChars_ne_nil _)
    | cons c cs =>
      simp only [jsNumberOfChars]
      rw [if_pos trivial]
      have hdig : ∀ x ∈ c :: cs, isDigitCh x = true := by
        intro x hx
        exact mem_natToChars_digit _ x (h ▸ hx)
      have hall : (c :: cs).all isDigitCh = true := List.all_eq_true.mpr hdig
      have : (!(c :: cs).isEmpty && (c :: cs).all isDigitCh) = true := by
        rw [hall]; rfl
      rw [if_pos this]
      rw [← h, decimalValue_natToChars]
      congr 1
      omega
  · rename_i hpos
    rw [jsNumber_natToChars]
    congr 1
    omega

theorem intToChars_no_underscore (i : Int) : ∀ c ∈ intToChars i, c ≠ '_' := by
  intro c hc
  unfold intToChars at hc
  split at hc
  · rcases List.mem_cons.mp hc with h | h
    · subst h; decide
    · exact digit_ne_underscore _ (mem_natToChars_digit _ _ h)
  · exact digit_ne_underscore _ (mem_natToChars_digit _ _ hc)

theorem splitOnCharAux_no_sep (sep : Char) :
    ∀ l : List Char, (∀ c ∈ l, c ≠ sep) → splitOnCharAux sep l = (l, []) := by
  intro l
  induction l with
  | nil => intro _; rfl
  | cons c cs ih =>
    intro h
    have hcs : ∀ x ∈ cs, x ≠ sep := fun x hx => h x (List.mem_cons_of_mem c hx)
    simp only [splitOnCharAux]
    rw [if_neg (h c (List.mem_cons_self c cs)), ih hcs]

theorem splitOnCharAux_append (sep : Char) :
    ∀ xs ys : List Char, (∀ c ∈ xs, c ≠ sep) →
      splitOnCharAux sep (xs ++ sep :: ys)
        = (xs, (splitOnCharAux sep ys).1 :: (splitOnCharAux sep ys).2) := by
  intro xs
  induction xs with
  | nil =>
    intro ys _
    simp only [List.nil_append, splitOnCharAux]
    rw [if_pos trivial]
  | cons x xs ih =>
    intro ys h
    have hxs : ∀ c ∈ xs, c ≠ sep := fun c hc => h c (List.mem_cons_of_mem x hc)
    simp only [List.cons_append, splitOnCharAux]
    rw [if_neg (h x (List.mem_cons_self x xs))]
    simp only [List.append_eq]
    rw [ih ys hxs]

theorem splitOnChar_no_sep (sep : Char) (l : List Char) (h : ∀ c ∈ l, c ≠ sep) :
    splitOnChar sep l = [l] := by
  unfold splitOnChar
  rw [splitOnCharAux_no_sep sep l h]

theorem splitOnChar_append (sep : Char) (xs ys : List Char) (h : ∀ c ∈ xs, c ≠ sep) :
    splitOnChar sep (xs ++ sep :: ys) = xs :: splitOnChar sep ys := by
  unfold splitOnChar
  rw [splitOnCharAux_append sep xs ys h]

/-- C8: for every file, extracting the collection id back out of the
derived UID id_collectionID_updationTime returns exactly the collection
id of the file. -/
theorem uid_roundtrip (f : EnteFile) :
    getCollectionIDFromFileUID (getExportRecordFileUID f) = some f.collectionID := by
  unfold getCollectionIDFromFileUID getExportRecordFileUID
  rw [splitOnChar_append '_' (intToChars f.id) _ (intToChars_no_underscore f.id)]
  rw [splitOnChar_append '_' (intToChars f.collectionID) _
    (intToChars_no_underscore f.collectionID)]
  rw [splitOnChar_no_sep '_' (intToChars f.updationTime)
    (intToChars_no_underscore f.updationTime)]
  simp only [List.get?]
  rw [Option.some_bind]
  exact jsNumber_intToChars f.collectionID

/-! ## C4: rename-suffix stability -/

/-- C4: a collection recorded in the journal whose recorded on-disk name,
after stripping a trailing parenthesized numeric suffix, equals its
current user-facing name is not selected by
`getRenamedExportedCollections`. -/
theorem renamed_collections_suffix_stable (collections : List Collection)
    (r : ExportRecord) (names : List (List Char × List Char)) (c : Collection)
    (recorded : List Char)
    (hnames : r.collectionExportNames = some names)
    (hrec : (names.find? fun kv => jsNumberOfChars kv.1 == some c.id).map Prod.snd
      = some recorded)
    (hstrip : stripNumberedSuffix recorded = getCollectionUserFacingName c) :
    c ∉ getRenamedExportedCollections collections r := by
  unfold getRenamedExportedCollections
  rw [hnames]
  intro hmem
  rw [List.mem_filter] at hmem
  obtain ⟨-, hpred⟩ := hmem
  rw [hrec] at hpred
  split at hpred
  · exact Bool.false_ne_true hpred
  · rename_i r3 heq
    injection heq with h3
    subst h3
    rw [hstrip] at hpred
    simp at hpred

/-- Witness for C4: the collection Summer, recorded on disk as Summer(1),
is not selected for rename. -/
theorem renamed_collections_suffix_stable_witness :
    (⟨1, "Summer".data⟩ : Collection) ∉ getRenamedExportedCollections
      [⟨1, "Summer".data⟩]
      ⟨3, none, 0, some [], some [("1".data, "Summer(1)".data)]⟩ :=
  renamed_collections_suffix_stable _ _ [("1".data, "Summer(1)".data)] _ "Summer(1)".data
    rfl (by decide) (by decide)

/-! ## C9: live-photo name detection is JSON acceptance -/

/-- C9: `isLivePhotoExportName` is exactly JSON-parse acceptance — it is
true for every string JSON.parse accepts, including a purely numeric
basename and a genuine live-photo name, and false exactly for the strings
JSON.parse rejects, such as an ordinary image basename. -/
theorem isLivePhotoExportName_spec :
    (∀ s : List Char, isLivePhotoExportName s = true ↔ jsonAccepts s = true) ∧
    isLivePhotoExportName "123".data = true ∧
    isLivePhotoExportName (getLivePhotoExportName "a.jpg".data "a.mov".data) = true ∧
    isLivePhotoExportName "IMG_1234.HEIC".data = false := by
  refine ⟨fun s => Iff.rfl, ?_, ?_, ?_⟩
  · decide
  · decide
  · decide

/-! ## C3: the unexported-files work list -/

/-- C3: FilesToExport holds exactly the current personal files whose UID
is not a key of the fileExportNames map of the journal, it is a sublist of
the personal files (stability), and it is sorted by collection id then
file id whenever the personal files are. -/
theorem getUnExportedFiles_spec (files : List EnteFile) (userID : Int)
    (collectionOwner : Int → Option Int) (r : ExportRecord) :
    (∀ f, f ∈ getUnExportedFiles (getPersonalFiles files userID collectionOwner) r ↔
      (f ∈ files ∧ collectionOwner f.collectionID = some userID ∧
        ∀ m, r.fileExportNames = some m → getExportRecordFileUID f ∉ m.map Prod.fst)) ∧
    List.Sublist (getUnExportedFiles (getPersonalFiles files userID collectionOwner) r)
      (getPersonalFiles files userID collectionOwner) ∧
    (List.Pairwise fileOrder (getPersonalFiles files userID collectionOwner) →
      List.Pairwise fileOrder
        (getUnExportedFiles (getPersonalFiles files userID collectionOwner) r)) := by
  have hsub : List.Sublist
      (getUnExportedFiles (getPersonalFiles files userID collectionOwner) r)
      (getPersonalFiles files userID collectionOwner) := by
    unfold getUnExportedFiles
    cases r.fileExportNames with
    | none => exact List.Sublist.refl _
    | some m => exact List.filter_sublist _
  refine ⟨?_, hsub, fun hp => List.Pairwise.sublist hsub hp⟩
  intro f
  unfold getUnExportedFiles
  cases hm : r.fileExportNames with
  | none =>
    simp [getPersonalFiles, List.mem_filter]
  | some m =>
    simp [getPersonalFiles, List.mem_filter, hm]
    tauto

/-! ## C7: journal load retried exactly once -/

/-- C7: when the journal file exists but its contents fail to parse, the
load sleeps 1000 ms and retries exactly once; a second parse failure
surfaces the parsing-failed error, while a parsable second read returns
its contents after the same single retry. -/
theorem getExportRecord_retry_once (env : RecordReadEnv)
    (h0 : env.folderExistsAt 0 = true) (hf0 : env.fileExistsAt 0 = true)
    (h1 : env.folderExistsAt 1 = true) (hf1 : env.fileExistsAt 1 = true)
    (hp0 : jsonAccepts (env.contentAt 0) = false) :
    (jsonAccepts (env.contentAt 1) = false →
      getExportRecord env = (.err .exportRecordJsonParsingFailed, [1000])) ∧
    (jsonAccepts (env.contentAt 1) = true →
      getExportRecord env = (.ok (env.contentAt 1), [1000])) := by
  have o0 : getExportRecordOnce env 0 = .err .exportRecordJsonParsingFailed := by
    simp [getExportRecordOnce, h0, hf0, hp0]
  constructor
  · intro hp1
    unfold getExportRecord
    rw [o0]
    simp [getExportRecordOnce, h1, hf1, hp1]
  · intro hp1
    unfold getExportRecord
    rw [o0]
    simp [getExportRecordOnce, h1, hf1, hp1]

/-- Witness for C7: a journal whose contents never parse is loaded twice,
slept on once, and surfaces the parsing-failed error. -/
theorem getExportRecord_retry_once_witness :
    getExportRecord ⟨fun _ => true, fun _ => true, fun _ => "x".data⟩
      = (.err .exportRecordJsonParsingFailed, [1000]) :=
  (getExportRecord_retry_once ⟨fun _ => true, fun _ => true, fun _ => "x".data⟩
    rfl rfl rfl rfl (by decide)).1 (by decide)

/-! ## C2: single-flight scheduling -/

theorem scheduleMany_running (n : Nat) :
    ∀ s : SchedulerState, s.exportInProgress = true → s.reRunNeeded = true →
      scheduleMany n s = s := by
  induction n with
  | zero => intro s _ _; rfl
  | succ n ih =>
    intro s hin hr
    have hstep : (scheduleExport s).1 = s := by
      cases s
      simp_all [scheduleExport]
    rw [scheduleMany, hstep]
    exact ih s hin hr

/-- C2: a call to scheduleExport while a run is in progress only sets the
re-run flag and starts nothing; any number of such triggers leave exactly
that one pending flag; and natural completion with the flag set clears it,
enqueues exactly one 0-delay deferred call, and that deferred call starts
a run. -/
theorem scheduleExport_single_flight (s : SchedulerState) :
    (s.exportInProgress = true →
      (scheduleExport s = ({ s with reRunNeeded := true }, false) ∧
        ∀ n, scheduleMany (n + 1) s = { s with reRunNeeded := true })) ∧
    (s.reRunNeeded = true →
      ((finishRunNatural s).reRunNeeded = false ∧
        (finishRunNatural s).deferredCalls = s.deferredCalls ++ [0] ∧
        (scheduleExport (finishRunNatural s)).2 = true ∧
        (scheduleExport (finishRunNatural s)).1.activeRuns
          = (finishRunNatural s).activeRuns + 1)) := by
  constructor
  · intro hin
    have hone : scheduleExport s = ({ s with reRunNeeded := true }, false) := by
      simp [scheduleExport, hin]
    refine ⟨hone, fun n => ?_⟩
    rw [scheduleMany, hone]
    exact scheduleMany_running n _ hin rfl
  · intro hr
    have hfin : finishRunNatural s
        = { exportInProgress := false, reRunNeeded := false,
            activeRuns := s.activeRuns - 1, deferredCalls := s.deferredCalls ++ [0] } := by
      simp [finishRunNatural, hr]
    rw [hfin]
    refine ⟨rfl, rfl, ?_, ?_⟩ <;> simp [scheduleExport]

/-! ## C10: the journal update is a field-wise merge -/

theorem lookupEntry_append_some {α : Type} (k : List Char)
    (xs ys : List (List Char × α)) (v : α) (h : lookupEntry k xs = some v) :
    lookupEntry k (xs ++ ys) = some v := by
  induction xs with
  | nil => simp [lookupEntry] at h
  | cons kv xs ih =>
    obtain ⟨k2, v2⟩ := kv
    simp only [lookupEntry, List.cons_append] at h ⊢
    split at h
    · rename_i hk
      rw [if_pos hk]
      exact h
    · rename_i hk
      rw [if_neg hk]
      exact ih h

theorem lookupEntry_append_none {α : Type} (k : List Char)
    (xs ys : List (List Char × α)) (h : lookupEntry k xs = none) :
    lookupEntry k (xs ++ ys) = lookupEntry k ys := by
  induction xs with
  | nil => rfl
  | cons kv xs ih =>
    obtain ⟨k2, v2⟩ := kv
    simp only [lookupEntry, List.cons_append] at h ⊢
    split at h
    · exact absurd h (by simp)
    · rename_i hk
      rw [if_neg hk]
      exact ih h

theorem lookupEntry_spreadMap_some {α : Type} (k : List Char)
    (a b : List (List Char × α)) (v : α) (ha : lookupEntry k a = some v) :
    lookupEntry k (a.map fun kv =>
        match lookupEntry kv.1 b with
        | some w => (kv.1, w)
        | none => kv)
      = some ((lookupEntry k b).getD v) := by
  induction a with
  | nil => simp [lookupEntry] at ha
  | cons kv a ih =>
    obtain ⟨k2, v2⟩ := kv
    simp only [lookupEntry] at ha
    rw [List.map_cons]
    by_cases hk : k2 = k
    · rw [if_pos hk] at ha
      injection ha with hv
      subst hk
      subst hv
      cases hb : lookupEntry k2 b with
      | none => simp [lookupEntry, hb]
      | some w => simp [lookupEntry, hb]
    · rw [if_neg hk] at ha
      cases hb : lookupEntry k2 b with
      | none => simpa [lookupEntry, hb, hk] using ih ha
      | some w => simpa [lookupEntry, hb, hk] using ih ha

theorem lookupEntry_spreadMap_none {α : Type} (k : List Char)
    (a b : List (List Char × α)) (ha : lookupEntry k a = none) :
    lookupEntry k (a.map fun kv =>
        match lookupEntry kv.1 b with
        | some w => (kv.1, w)
        | none => kv)
      = none := by
  induction a with
  | nil => rfl
  | cons kv a ih =>
    obtain ⟨k2, v2⟩ := kv
    simp only [lookupEntry] at ha
    split at ha
    · exact absurd ha (by simp)
    · rename_i hk
      rw [List.map_cons]
      cases hb : lookupEntry k2 b with
      | none => simpa [lookupEntry, hb, hk] using ih ha
      | some w => simpa [lookupEntry, hb, hk] using ih ha

theorem lookupEntry_spreadFilter_of_none {α : Type} (k : List Char)
    (a b : List (List Char × α)) (ha : lookupEntry k a = none) :
    lookupEntry k (b.filter fun kv => (lookupEntry kv.1 a).isNone) = lookupEntry k b := by
  induction b with
  | nil => rfl
  | cons kv b ih =>
    obtain ⟨k2, w⟩ := kv
    by_cases hk : k2 = k
    · subst hk
      rw [List.filter_cons]
      simp only [ha, Option.isNone_none]
      simp [lookupEntry, ih]
    · rw [List.filter_cons]
      cases h2 : (lookupEntry k2 a).isNone with
      | true => simp [lookupEntry, hk, ih]
      | false => simp [lookupEntry, hk, ih]

theorem lookupEntry_spreadFilter_of_some {α : Type} (k : List Char)
    (a b : List (List Char × α)) (v : α) (ha : lookupEntry k a = some v) :
    lookupEntry k (b.filter fun kv => (lookupEntry kv.1 a).isNone) = none := by
  induction b with
  | nil => rfl
  | cons kv b ih =>
    obtain ⟨k2, w⟩ := kv
    by_cases hk : k2 = k
    · subst hk
      rw [List.filter_cons]
      simp only [ha, Option.isNone_some]
      simpa using ih
    · rw [List.filter_cons]
      cases h2 : (lookupEntry k2 a).isNone with
      | true => simp [lookupEntry, hk, ih]
      | false => simp [lookupEntry, hk, ih]

/-- The JS object spread resolves a key to the later value when the later
object has the key and to the earlier value otherwise. -/
theorem lookupEntry_spreadObj {α : Type} (a b : List (List Char × α)) (k : List Char) :
    lookupEntry k (spreadObj a b)
      = match lookupEntry k b with
        | some v => some v
        | none => lookupEntry k a := by
  unfold spreadObj
  cases ha : lookupEntry k a with
  | some v =>
    rw [lookupEntry_append_some k _ _ _ (lookupEntry_spreadMap_some k a b v ha)]
    cases hb : lookupEntry k b with
    | some w => simp [hb]
    | none => simp [hb, ha]
  | none =>
    rw [lookupEntry_append_none k _ _ (lookupEntry_spreadMap_none k a b ha)]
    rw [lookupEntry_spreadFilter_of_none k a b ha]
    cases hb : lookupEntry k b with
    | some w => simp
    | none => simp [ha]

theorem lookupEntry_optEntry_self {α : Type} (k : List Char) (o : Option α) :
    lookupEntry k (optEntry k o) = o := by
  cases o <;> simp [optEntry, lookupEntry]

theorem lookupEntry_optEntry_ne {α : Type} (k k2 : List Char) (h : ¬(k2 = k))
    (o : Option α) : lookupEntry k (optEntry k2 o) = none := by
  cases o <;> simp [optEntry, lookupEntry, h]

theorem lookupEntry_append {α : Type} (k : List Char) (xs ys : List (List Char × α)) :
    lookupEntry k (xs ++ ys)
      = match lookupEntry k xs with
        | some v => some v
        | none => lookupEntry k ys := by
  cases h : lookupEntry k xs with
  | none => rw [lookupEntry_append_none k xs ys h]
  | some v => rw [lookupEntry_append_some k xs ys v h]

theorem lookup_partialToObj_version (nd : PartialExportRecord) :
    lookupEntry kVersion (partialToObj nd) = nd.version.map fun n => JVal.jnum (n : Int) := by
  unfold partialToObj
  rw [lookupEntry_append, lookupEntry_append, lookupEntry_append, lookupEntry_append]
  rw [lookupEntry_optEntry_self]
  rw [lookupEntry_optEntry_ne kVersion kLastAttemptTimestamp (by decide),
    lookupEntry_optEntry_ne kVersion kStage (by decide),
    lookupEntry_optEntry_ne kVersion kFileExportNames (by decide),
    lookupEntry_optEntry_ne kVersion kCollectionExportNames (by decide)]
  cases nd.version <;> rfl

theorem lookup_partialToObj_lastAttempt (nd : PartialExportRecord) :
    lookupEntry kLastAttemptTimestamp (partialToObj nd)
      = nd.lastAttemptTimestamp.map JVal.jnum := by
  unfold partialToObj
  rw [lookupEntry_append, lookupEntry_append, lookupEntry_append, lookupEntry_append]
  rw [lookupEntry_optEntry_self]
  rw [lookupEntry_optEntry_ne kLastAttemptTimestamp kVersion (by decide),
    lookupEntry_optEntry_ne kLastAttemptTimestamp kStage (by decide),
    lookupEntry_optEntry_ne kLastAttemptTimestamp kFileExportNames (by decide),
    lookupEntry_optEntry_ne kLastAttemptTimestamp kCollectionExportNames (by decide)]
  cases nd.version <;> cases nd.lastAttemptTimestamp <;> rfl

theorem lookup_partialToObj_stage (nd : PartialExportRecord) :
    lookupEntry kStage (partialToObj nd) = nd.stage.map fun n => JVal.jnum (n : Int) := by
  unfold partialToObj
  rw [lookupEntry_append, lookupEntry_append, lookupEntry_append, lookupEntry_append]
  rw [lookupEntry_optEntry_self]
  rw [lookupEntry_optEntry_ne kStage kVersion (by decide),
    lookupEntry_optEntry_ne kStage kLastAttemptTimestamp (by decide),
    lookupEntry_optEntry_ne kStage kFileExportNames (by decide),
    lookupEntry_optEntry_ne kStage kCollectionExportNames (by decide)]
  cases nd.version <;> cases nd.lastAttemptTimestamp <;> cases nd.stage <;> rfl

theorem lookup_partialToObj_fileNames (nd : PartialExportRecord) :
    lookupEntry kFileExportNames (partialToObj nd) = nd.fileExportNames.map JVal.jmap := by
  unfold partialToObj
  rw [lookupEntry_append, lookupEntry_append, lookupEntry_append, lookupEntry_append]
  rw [lookupEntry_optEntry_self]
  rw [lookupEntry_optEntry_ne kFileExportNames kVersion (by decide),
    lookupEntry_optEntry_ne kFileExportNames kLastAttemptTimestamp (by decide),
    lookupEntry_optEntry_ne kFileExportNames kStage (by decide),
    lookupEntry_optEntry_ne kFileExportNames kCollectionExportNames (by decide)]
  cases nd.version <;> cases nd.lastAttemptTimestamp <;> cases nd.stage <;>
    cases nd.fileExportNames <;> rfl

theorem lookup_partialToObj_collectionNames (nd : PartialExportRecord) :
    lookupEntry kCollectionExportNames (partialToObj nd)
      = nd.collectionExportNames.map JVal.jmap := by
  unfold partialToObj
  rw [lookupEntry_append, lookupEntry_append, lookupEntry_append, lookupEntry_append]
  rw [lookupEntry_optEntry_self]
  rw [lookupEntry_optEntry_ne kCollectionExportNames kVersion (by decide),
    lookupEntry_optEntry_ne kCollectionExportNames kLastAttemptTimestamp (by decide),
    lookupEntry_optEntry_ne kCollectionExportNames kStage (by decide),
    lookupEntry_optEntry_ne kCollectionExportNames kFileExportNames (by decide)]

theorem spreadObj_keys {α : Type} (a b : List (List Char × α)) :
    ∀ kv ∈ spreadObj a b, kv.1 ∈ a.map Prod.fst ∨ kv.1 ∈ b.map Prod.fst := by
  intro kv hkv
  unfold spreadObj at hkv
  rw [List.mem_append] at hkv
  rcases hkv with h | h
  · rw [List.mem_map] at h
    obtain ⟨kv0, hkv0, heq⟩ := h
    left
    rw [List.mem_map]
    refine ⟨kv0, hkv0, ?_⟩
    cases hl : lookupEntry kv0.1 b with
    | none =>
      have h2 : kv0 = kv := by simpa [hl] using heq
      rw [h2]
    | some w =>
      have h2 : (kv0.1, w) = kv := by simpa [hl] using heq
      rw [← h2]
  · rw [List.mem_filter] at h
    right
    rw [List.mem_map]
    exact ⟨kv, h.1, rfl⟩

/-- C10: the persisted record is the field-wise merge of the prior record
with the partial new data: each of the five fields takes the new value
when present and keeps the prior value when absent, and no other field is
introduced. -/
theorem updateExportRecordHelper_merge (prior : ExportRecord) (nd : PartialExportRecord) :
    lookupEntry kVersion (updateExportRecordHelper prior nd)
      = some (JVal.jnum ((nd.version.getD prior.version : Nat) : Int)) ∧
    lookupEntry kLastAttemptTimestamp (updateExportRecordHelper prior nd)
      = some ((nd.lastAttemptTimestamp.map JVal.jnum).getD
          (encLastAttempt prior.lastAttemptTimestamp)) ∧
    lookupEntry kStage (updateExportRecordHelper prior nd)
      = some (JVal.jnum ((nd.stage.getD prior.stage : Nat) : Int)) ∧
    lookupEntry kFileExportNames (updateExportRecordHelper prior nd)
      = some (JVal.jmap (nd.fileExportNames.getD (prior.fileExportNames.getD []))) ∧
    lookupEntry kCollectionExportNames (updateExportRecordHelper prior nd)
      = some (JVal.jmap
          (nd.collectionExportNames.getD (prior.collectionExportNames.getD []))) ∧
    ∀ kv ∈ updateExportRecordHelper prior nd,
      kv.1 = kVersion ∨ kv.1 = kLastAttemptTimestamp ∨ kv.1 = kStage ∨
        kv.1 = kFileExportNames ∨ kv.1 = kCollectionExportNames := by
  refine ⟨?_, ?_, ?_, ?_, ?_, ?_⟩
  · rw [updateExportRecordHelper, lookupEntry_spreadObj, lookup_partialToObj_version]
    cases nd.version with
    | none => simp [exportRecordToObj, lookupEntry]
    | some v => rfl
  · rw [updateExportRecordHelper, lookupEntry_spreadObj, lookup_partialToObj_lastAttempt]
    cases nd.lastAttemptTimestamp with
    | none => simp +decide [exportRecordToObj, lookupEntry]
    | some t => rfl
  · rw [updateExportRecordHelper, lookupEntry_spreadObj, lookup_partialToObj_stage]
    cases nd.stage with
    | none => simp +decide [exportRecordToObj, lookupEntry]
    | some v => rfl
  · rw [updateExportRecordHelper, lookupEntry_spreadObj, lookup_partialToObj_fileNames]
    cases nd.fileExportNames with
    | none => simp +decide [exportRecordToObj, lookupEntry]
    | some m => rfl
  · rw [updateExportRecordHelper, lookupEntry_spreadObj, lookup_partialToObj_collectionNames]
    cases nd.collectionExportNames with
    | none => simp +decide [exportRecordToObj, lookupEntry]
    | some m => rfl
  · intro kv hkv
    rcases spreadObj_keys _ _ kv hkv with h | h
    · simp [exportRecordToObj] at h
      tauto
    · unfold partialToObj at h
      simp only [List.map_append, List.mem_append] at h
      have hopt : ∀ (k : List Char) (o : Option JVal) (x : List Char),
          x ∈ (optEntry k o).map Prod.fst → x = k := by
        intro k o x hx
        cases o with
        | none => simp [optEntry] at hx
        | some v => simpa [optEntry] using hx
      rcases h with (((h | h) | h) | h) | h
      · exact Or.inl (hopt _ _ _ h)
      · exact Or.inr (Or.inl (hopt _ _ _ h))
      · exact Or.inr (Or.inr (Or.inl (hopt _ _ _ h)))
      · exact Or.inr (Or.inr (Or.inr (Or.inl (hopt _ _ _ h))))
      · exact Or.inr (Or.inr (Or.inr (Or.inr (hopt _ _ _ h))))

/-! ## C1: live-photo rollback when the video write fails -/

theorem lookupEntry_filter_ne {α : Type} (k : List Char) (l : List (List Char × α)) :
    lookupEntry k (l.filter fun kv => !(kv.1 == k)) = none := by
  induction l with
  | nil => rfl
  | cons kv l ih =>
    obtain ⟨k2, v⟩ := kv
    rw [List.filter_cons]
    by_cases hk : k2 = k
    · subst hk
      simpa using ih
    · simpa [hk, lookupEntry] using ih

theorem contains_filter_ne (l : List (List Char)) (a : List Char) :
    (l.filter fun q => !(q == a)).contains a = false := by
  induction l with
  | nil => rfl
  | cons q l ih =>
    rw [List.filter_cons]
    by_cases hq : q = a
    · subst hq
      simp [ih]
    · have hq2 : ¬(a = q) := fun h => hq h.symm
      simp [hq, hq2, ih]

/-- C1: when the video write of a live photo fails after the image (and the
two sidecars) were written, the already-written image file is deleted, the
combined journal mapping — which was recorded before any write — is
removed, and the video-write error propagates; afterwards the journal has
no entry for the UID. -/
theorem exportLivePhoto_video_failure_rollback (o : FsOracle)
    (fileUID collectionExportPath imageExportName videoExportName : List Char)
    (s : ExportState)
    (hAdd : o.journalAddOk = true) (hRem : o.journalRemoveOk = true)
    (hM1 : o.saveOk (getFileMetadataExportPath collectionExportPath imageExportName) = true)
    (hImg : o.saveOk (collectionExportPath ++ '/' :: imageExportName) = true)
    (hM2 : o.saveOk (getFileMetadataExportPath collectionExportPath videoExportName) = true)
    (hVid : o.saveOk (collectionExportPath ++ '/' :: videoExportName) = false)
    (hDel : o.deleteOk (collectionExportPath ++ '/' :: imageExportName) = true) :
    (exportLivePhoto o fileUID collectionExportPath imageExportName videoExportName s).1
      = some (.saveFailed (collectionExportPath ++ '/' :: videoExportName)) ∧
    ((exportLivePhoto o fileUID collectionExportPath imageExportName videoExportName
        s).2.disk.contains (collectionExportPath ++ '/' :: imageExportName)) = false ∧
    lookupEntry fileUID
      ((exportLivePhoto o fileUID collectionExportPath imageExportName videoExportName
        s).2.record.fileExportNames.getD []) = none ∧
    lookupEntry fileUID
      ((addFileExportedRecord fileUID (getLivePhotoExportName imageExportName videoExportName)
        s.record).fileExportNames.getD [])
      = some (getLivePhotoExportName imageExportName videoExportName) := by
  have hrun : exportLivePhoto o fileUID collectionExportPath imageExportName videoExportName s
      = (some (.saveFailed (collectionExportPath ++ '/' :: videoExportName)),
        ⟨(getFileMetadataExportPath collectionExportPath videoExportName ::
            (collectionExportPath ++ '/' :: imageExportName) ::
            getFileMetadataExportPath collectionExportPath imageExportName ::
            s.disk).filter fun q => !(q == collectionExportPath ++ '/' :: imageExportName),
          removeFileExportedRecord fileUID
            (addFileExportedRecord fileUID
              (getLivePhotoExportName imageExportName videoExportName) s.record)⟩) := by
    unfold exportLivePhoto
    simp [hAdd, hRem, hM1, hImg, hM2, hVid, hDel]
  rw [hrun]
  refine ⟨rfl, contains_filter_ne _ _, ?_, ?_⟩
  · unfold removeFileExportedRecord
    simp only [Option.getD_some]
    exact lookupEntry_filter_ne _ _
  · unfold addFileExportedRecord
    simp only [Option.getD_some]
    rw [lookupEntry_spreadObj]
    simp [lookupEntry]

/-- Witness for C1: concrete live photo i.jpg and i.mov in collection
directory p with the video write injected to fail. -/
theorem exportLivePhoto_video_failure_rollback_witness :
    (exportLivePhoto ⟨(fun p => !(p == "p/i.mov".data)), (fun _ => true), true, true⟩
      "1_2_3".data "p".data "i.jpg".data "i.mov".data ⟨[], NULL_EXPORT_RECORD⟩).1
      = some (.saveFailed "p/i.mov".data) ∧
    ((exportLivePhoto ⟨(fun p => !(p == "p/i.mov".data)), (fun _ => true), true, true⟩
      "1_2_3".data "p".data "i.jpg".data "i.mov".data
      ⟨[], NULL_EXPORT_RECORD⟩).2.disk.contains "p/i.jpg".data) = false ∧
    lookupEntry "1_2_3".data
      ((exportLivePhoto ⟨(fun p => !(p == "p/i.mov".data)), (fun _ => true), true, true⟩
        "1_2_3".data "p".data "i.jpg".data "i.mov".data
        ⟨[], NULL_EXPORT_RECORD⟩).2.record.fileExportNames.getD []) = none ∧
    lookupEntry "1_2_3".data
      ((addFileExportedRecord "1_2_3".data (getLivePhotoExportName "i.jpg".data "i.mov".data)
        NULL_EXPORT_RECORD).fileExportNames.getD [])
      = some (getLivePhotoExportName "i.jpg".data "i.mov".data) := by
  have h := exportLivePhoto_video_failure_rollback
    ⟨(fun p => !(p == "p/i.mov".data)), (fun _ => true), true, true⟩
    "1_2_3".data "p".data "i.jpg".data "i.mov".data ⟨[], NULL_EXPORT_RECORD⟩
    rfl rfl (by decide) (by decide) (by decide) (by decide) (by decide)
  exact h

/-! ## C5: the collection-not-empty error is not fatal to the phase -/

/-- Counterexample to C5 as stated: collection 1 still has a journal file
entry, yet running the phase over the ids 1 and 2 propagates no error and
collection 2 is still processed (its journal entry is removed) — the
collection-not-empty error is logged and skipped, not fatal. -/
theorem collectionRemover_cex :
    (collectionRemover ⟨true, fun _ => true⟩
        ⟨3, none, 0, some [("10_1_5".data, "a.jpg".data)],
          some [("1".data, "A".data), ("2".data, "B".data)]⟩
        true false "e".data [1, 2]
        ⟨["e/A".data, "e/A/metadata".data, "e/B".data, "e/B/metadata".data],
          ⟨3, none, 0, some [("10_1_5".data, "a.jpg".data)],
            some [("1".data, "A".data), ("2".data, "B".data)]⟩⟩).1 = none ∧
    lookupEntry "2".data
      ((collectionRemover ⟨true, fun _ => true⟩
        ⟨3, none, 0, some [("10_1_5".data, "a.jpg".data)],
          some [("1".data, "A".data), ("2".data, "B".data)]⟩
        true false "e".data [1, 2]
        ⟨["e/A".data, "e/A/metadata".data, "e/B".data, "e/B/metadata".data],
          ⟨3, none, 0, some [("10_1_5".data, "a.jpg".data)],
            some [("1".data, "A".data), ("2".data, "B".data)]⟩⟩).2.record.collectionExportNames.getD [])
      = none ∧
    lookupEntry "1".data
      ((collectionRemover ⟨true, fun _ => true⟩
        ⟨3, none, 0, some [("10_1_5".data, "a.jpg".data)],
          some [("1".data, "A".data), ("2".data, "B".data)]⟩
        true false "e".data [1, 2]
        ⟨["e/A".data, "e/A/metadata".data, "e/B".data, "e/B/metadata".data],
          ⟨3, none, 0, some [("10_1_5".data, "a.jpg".data)],
            some [("1".data, "A".data), ("2".data, "B".data)]⟩⟩).2.record.collectionExportNames.getD [])
      = some "A".data ∧
    (getCollectionExportedFiles
      ⟨3, none, 0, some [("10_1_5".data, "a.jpg".data)],
        some [("1".data, "A".data), ("2".data, "B".data)]⟩ 1).length > 0 := by
  refine ⟨by decide, by decide, by decide, by decide⟩

/-- C5 amended: a collection id whose removal is attempted while the
journal snapshot still holds a file entry for it raises the
collection-not-empty error before its journal entry or any directory is
touched, but the per-item handler treats it as non-fatal: the loop
continues with the remaining collection ids on the unchanged state. -/
theorem collectionRemover_nonempty_skips (o : RemOracle) (snapshot : ExportRecord)
    (exportFolder : List Char) (collectionID : Int) (rest : List Int) (st : ExportState)
    (hne : (getCollectionExportedFiles snapshot collectionID).length > 0) :
    removeOneCollection o snapshot true false exportFolder collectionID st
      = (some .collectionNotEmpty, st) ∧
    collectionRemover o snapshot true false exportFolder (collectionID :: rest) st
      = collectionRemover o snapshot true false exportFolder rest st := by
  have h1 : removeOneCollection o snapshot true false exportFolder collectionID st
      = (some .collectionNotEmpty, st) := by
    unfold removeOneCollection
    simp [hne]
  refine ⟨h1, ?_⟩
  rw [collectionRemover, h1]
  rfl

/-- Witness for C5 amended: concretely, collection 1 with a remaining file
entry is skipped and the remaining id list is processed from the same
state. -/
theorem collectionRemover_nonempty_skips_witness :
    removeOneCollection ⟨true, fun _ => true⟩
      ⟨3, none, 0, some [("10_1_5".data, "a.jpg".data)], some [("1".data, "A".data)]⟩
      true false "e".data 1
      ⟨[], ⟨3, none, 0, some [("10_1_5".data, "a.jpg".data)], some [("1".data, "A".data)]⟩⟩
      = (some .collectionNotEmpty,
        ⟨[], ⟨3, none, 0, some [("10_1_5".data, "a.jpg".data)], some [("1".data, "A".data)]⟩⟩) ∧
    collectionRemover ⟨true, fun _ => true⟩
      ⟨3, none, 0, some [("10_1_5".data, "a.jpg".data)], some [("1".data, "A".data)]⟩
      true false "e".data [1, 2]
      ⟨[], ⟨3, none, 0, some [("10_1_5".data, "a.jpg".data)], some [("1".data, "A".data)]⟩⟩
      = collectionRemover ⟨true, fun _ => true⟩
        ⟨3, none, 0, some [("10_1_5".data, "a.jpg".data)], some [("1".data, "A".data)]⟩
        true false "e".data [2]
        ⟨[], ⟨3, none, 0, some [("10_1_5".data, "a.jpg".data)], some [("1".data, "A".data)]⟩⟩ :=
  collectionRemover_nonempty_skips ⟨true, fun _ => true⟩
    ⟨3, none, 0, some [("10_1_5".data, "a.jpg".data)], some [("1".data, "A".data)]⟩
    "e".data 1 [2]
    ⟨[], ⟨3, none, 0, some [("10_1_5".data, "a.jpg".data)], some [("1".data, "A".data)]⟩⟩
    (by decide)

/-! ## C6: trash path allocation -/

/-- Counterexample to C6 as stated: with Trash/c/a.jpg and
Trash/c/a(1).jpg existing, the claimed candidate scheme (the original stem
with k = 2) names a path that does not exist, yet the code returns the
accumulated-suffix path a(1)(2).jpg, because each retry re-splits the
current candidate rather than the original. -/
theorem getTrashedFileExportPath_cex :
    getTrashedFileExportPath ["e/Trash/c/a.jpg".data, "e/Trash/c/a(1).jpg".data]
        "e".data "e/c/a.jpg".data = some "e/Trash/c/a(1)(2).jpg".data ∧
    initialTrashPath "e".data "e/c/a.jpg".data = "e/Trash/c/a.jpg".data ∧
    nextTrashCandidate 1 (initialTrashPath "e".data "e/c/a.jpg".data)
      = "e/Trash/c/a(1).jpg".data ∧
    nextTrashCandidate 2 (initialTrashPath "e".data "e/c/a.jpg".data)
      = "e/Trash/c/a(2).jpg".data ∧
    (["e/Trash/c/a.jpg".data, "e/Trash/c/a(1).jpg".data].contains
      "e/Trash/c/a(2).jpg".data) = false ∧
    "e/Trash/c/a(1)(2).jpg".data ≠ "e/Trash/c/a(2).jpg".data := by
  refine ⟨by decide, by decide, by decide, by decide, by decide, by decide⟩

theorem splitFilenameAndExtension_none (p s : List Char)
    (h : splitFilenameAndExtension p = (s, none)) : s = p := by
  induction p generalizing s with
  | nil =>
    simp only [splitFilenameAndExtension] at h
    injection h with h1 _
    exact h1.symm ▸ rfl
  | cons c cs ih =>
    simp only [splitFilenameAndExtension] at h
    cases hsplit : splitFilenameAndExtension cs with
    | mk stem oe =>
      rw [hsplit] at h
      cases oe with
      | some e => simp at h
      | none =>
        simp only at h
        split at h
        · simp at h
        · injection h with h1 _
          exact h1.symm ▸ rfl

theorem splitFilenameAndExtension_some (p : List Char) :
    ∀ s e, splitFilenameAndExtension p = (s, some e) →
      s.length + 1 + e.length = p.length := by
  induction p with
  | nil =>
    intro s e h
    simp [splitFilenameAndExtension] at h
  | cons c cs ih =>
    intro s e h
    simp only [splitFilenameAndExtension] at h
    cases hsplit : splitFilenameAndExtension cs with
    | mk stem oe =>
      rw [hsplit] at h
      cases oe with
      | some e2 =>
        simp only at h
        injection h with h1 h2
        injection h2 with h2
        subst h1
        subst h2
        have := ih stem e2 hsplit
        simp only [List.length_cons]
        omega
      | none =>
        simp only at h
        split at h
        · injection h with h1 h2
          injection h2 with h2
          subst h1
          subst h2
          simp only [List.length_nil, List.length_cons]
          omega
        · simp at h

theorem natToChars_length_pos (n : Nat) : 0 < (natToChars n).length := by
  cases h : natToChars n with
  | nil => exact absurd h (natToChars_ne_nil n)
  | cons c cs => simp

theorem nextTrashCandidate_length (count : Nat) (p : List Char) :
    p.length < (nextTrashCandidate count p).length := by
  unfold nextTrashCandidate
  cases hsplit : splitFilenameAndExtension p with
  | mk s oe =>
    cases oe with
    | some e =>
      have hlen := splitFilenameAndExtension_some p s e hsplit
      have hpos := natToChars_length_pos count
      simp only [List.length_append, List.length_cons]
      omega
    | none =>
      have hs : s = p := splitFilenameAndExtension_none p s hsplit
      subst hs
      have hpos := natToChars_length_pos count
      simp only [List.length_append, List.length_cons]
      omega

theorem length_filter_lt_of_mem {α : Type} (l : List α) (p : α → Bool) (a : α)
    (ha : a ∈ l) (hpa : p a = false) : (l.filter p).length < l.length := by
  induction l with
  | nil => simp at ha
  | cons b l ih =>
    rw [List.filter_cons]
    rcases List.mem_cons.mp ha with hab | hal
    · subst hab
      rw [hpa]
      simp only [Bool.false_eq_true, if_false, List.length_cons]
      have := List.length_filter_le p l
      omega
    · by_cases hpb : p b = true
      · rw [hpb]
        simp only [if_true, List.length_cons]
        exact Nat.succ_lt_succ (ih hal)
      · rw [Bool.not_eq_true] at hpb
        rw [hpb]
        simp only [Bool.false_eq_true, if_false, List.length_cons]
        exact Nat.lt_succ_of_lt (ih hal)

theorem trashLoop_finds (disk : List (List Char)) :
    ∀ fuel count p,
      (disk.filter fun q => decide (p.length ≤ q.length)).length < fuel →
      ∃ r, getTrashedFileExportPathLoop disk fuel count p = some r ∧
        disk.contains r = false := by
  intro fuel
  induction fuel with
  | zero => intro count p h; omega
  | succ fuel ih =>
    intro count p h
    by_cases hc : disk.contains p = true
    · have hmem : p ∈ disk := by simpa using hc
      set p2 := nextTrashCandidate count p with hp2
      have hlen : p.length < p2.length := nextTrashCandidate_length count p
      have hfilter : disk.filter (fun q => decide (p2.length ≤ q.length))
          = (disk.filter fun q => decide (p.length ≤ q.length)).filter
            (fun q => decide (p2.length ≤ q.length)) := by
        rw [List.filter_filter]
        apply List.filter_congr
        intro q _
        by_cases hq : p2.length ≤ q.length
        · have hq2 : p.length ≤ q.length := by omega
          simp [hq, hq2]
        · simp [hq]
      have hmem2 : p ∈ disk.filter fun q => decide (p.length ≤ q.length) := by
        rw [List.mem_filter]
        exact ⟨hmem, by simp⟩
      have hfalse : decide (p2.length ≤ p.length) = false := by
        simp only [decide_eq_false_iff_not]
        omega
      have hlt : (disk.filter fun q => decide (p2.length ≤ q.length)).length < fuel := by
        rw [hfilter]
        have := length_filter_lt_of_mem
          (disk.filter fun q => decide (p.length ≤ q.length))
          (fun q => decide (p2.length ≤ q.length)) p hmem2 hfalse
        omega
      obtain ⟨r, hr, hrc⟩ := ih (count + 1) p2 hlt
      refine ⟨r, ?_, hrc⟩
      rw [getTrashedFileExportPathLoop, if_pos hc]
      exact hr
    · rw [Bool.not_eq_true] at hc
      refine ⟨p, ?_, hc⟩
      rw [getTrashedFileExportPathLoop, hc]
      simp

/-- C6 amended: the returned trash path never names an existing file; the
first candidate is Trash/relative(p); when that collides the next
candidate appends the parenthesized counter to the stem of the current
candidate (so suffixes accumulate on repeated collisions), and the first
non-colliding candidate is returned. -/
theorem getTrashedFileExportPath_no_collision (disk : List (List Char))
    (exportDir path : List Char) :
    ∃ r, getTrashedFileExportPath disk exportDir path = some r ∧
      disk.contains r = false ∧
      (disk.contains (initialTrashPath exportDir path) = false →
        r = initialTrashPath exportDir path) ∧
      (disk.contains (initialTrashPath exportDir path) = true →
        disk.contains (nextTrashCandidate 1 (initialTrashPath exportDir path)) = false →
        r = nextTrashCandidate 1 (initialTrashPath exportDir path)) := by
  have hfuel : (disk.filter fun q =>
      decide ((initialTrashPath exportDir path).length ≤ q.length)).length < disk.length + 1 := by
    have := List.length_filter_le (fun q =>
      decide ((initialTrashPath exportDir path).length ≤ q.length)) disk
    omega
  obtain ⟨r, hr, hrc⟩ := trashLoop_finds disk (disk.length + 1) 1
    (initialTrashPath exportDir path) hfuel
  refine ⟨r, hr, hrc, ?_, ?_⟩
  · intro h0
    rw [getTrashedFileExportPathLoop, h0] at hr
    simp at hr
    exact hr.symm
  · intro h0 h1
    rw [getTrashedFileExportPathLoop, if_pos h0] at hr
    cases hn : disk.length with
    | zero =>
      rw [List.length_eq_zero] at hn
      subst hn
      simp at h0
    | succ m =>
      rw [hn] at hr
      rw [getTrashedFileExportPathLoop, h1] at hr
      simp at hr
      exact hr.symm

end EnteExport
